import Mathlib

set_option maxRecDepth 10000

/-!
Verification development for the embedding-request gateway of
`embedding_service.py`: a cache gateway (`embed`, `embed_batch`) in front of
an embedding provider, with a key-value cache adapter
(`get_cached_embedding`, `cache_embedding`).

Modelling conventions (shallow embedding of the Python source):
* vector components carry no relevant structure, so an embedding vector is a
  `List Int` (only lengths and equality of vectors matter to the contract);
* the MD5 digest used for cache keys is content-addressed and treated as
  injective by the design, so `get_cache_key` is modelled as the identity on
  the normalized text;
* the Redis store is a `Store`: an association list of entries whose payloads
  either deserialize to a vector (`Payload.good`) or fail to deserialize
  (`Payload.corrupt`), plus two failure flags modelling a store that raises
  on reads resp. writes; `CACHE_ENABLED` is the `enabled : Bool` argument;
* exceptions caught by the adapter are modelled by `Except` results of the
  raw store operations, which the adapter converts to `none` / no-op;
* the provider (`model.encode`) is an arbitrary function
  `List String → List (Option Vec)`: each returned element is a vector or
  absent, and vectors of wrong dimension are possible;
* gateway outputs carry observation traces: the cache keys read, the
  provider calls issued (one entry per call, holding the texts sent), and
  the cache writes attempted, so that call-counting claims are statable;
* time is not modelled: a stored entry stays present (no TTL expiry or
  eviction happens between the operations under study).
-/

/-- An embedding vector: an ordered sequence of numbers. -/
abbrev Vec := List Int

/-- `EMBEDDING_DIM = 1024` in the source. -/
def EMBEDDING_DIM : Nat := 1024

/-- `CACHE_TTL = 3600` in the source (expiry itself is the store's business
and is not modelled). -/
def CACHE_TTL : Nat := 3600

/-- A stored cache payload: either it unpickles to a vector, or
deserialization fails. -/
inductive Payload where
  | good : Vec → Payload
  | corrupt : Payload
deriving DecidableEq, Repr

/-- The key-value store visible to the adapter: entries keyed by cache key,
with flags modelling a store whose reads resp. writes raise exceptions. -/
structure Store where
  entries : List (String × Payload)
  failReads : Bool
  failWrites : Bool
deriving DecidableEq, Repr

/-- Python's default `str.strip` whitespace set. -/
def isPySpace (c : Char) : Bool :=
  c = ' ' || c = '\t' || c = '\n' || c = '\r' || c = '\x0b' || c = '\x0c'

/-- Python `text.strip()`: drop leading and trailing whitespace. -/
def strip (s : String) : String :=
  ⟨((s.data.dropWhile isPySpace).reverse.dropWhile isPySpace).reverse⟩

/-- `get_cache_key`: the MD5 digest of the text, modelled as the text itself
(content-addressed, injective by design). -/
def get_cache_key (text : String) : String :=
  text

/-- Raw store read (`cache.get`): raises when the store is unreachable. -/
def rawGet (st : Store) (key : String) : Except Unit (Option Payload) :=
  if st.failReads then Except.error () else Except.ok (st.entries.lookup key)

/-- `pickle.loads`: raises on a corrupt payload. -/
def deserialize : Payload → Except Unit Vec
  | Payload.good v => Except.ok v
  | Payload.corrupt => Except.error ()

/-- Raw store write (`cache.setex`): raises when the store is unreachable;
otherwise the new binding shadows any earlier one under the same key. -/
def rawSetex (st : Store) (key : String) (v : Vec) : Except Unit Store :=
  if st.failWrites then Except.error ()
  else Except.ok { st with entries := (key, Payload.good v) :: st.entries }

/-- `get_cached_embedding`: returns `none` when the cache is disabled, the
read raises, the key is absent, or the payload fails to deserialize (the
`try`/`except` swallows both kinds of exception). -/
def get_cached_embedding (enabled : Bool) (st : Store) (text : String) :
    Option Vec :=
  if ¬enabled then none
  else
    match rawGet st (get_cache_key text) with
    | Except.error _ => none
    | Except.ok none => none
    | Except.ok (some p) =>
      match deserialize p with
      | Except.error _ => none
      | Except.ok v => some v

/-- `cache_embedding`: best-effort write; when the cache is disabled or the
write raises, the store is returned unchanged and no error escapes. -/
def cache_embedding (enabled : Bool) (st : Store) (text : String)
    (embedding : Vec) : Store :=
  if ¬enabled then st
  else
    match rawSetex st (get_cache_key text) embedding with
    | Except.error _ => st
    | Except.ok st' => st'

/-- Output of the single-text endpoint `embed`, with observation traces.
`cached` is `none` when the JSON response carries no `cached` field. -/
structure SingleOutput where
  embedding : Option Vec
  cached : Option Bool
  store : Store
  reads : List String
  calls : List (List String)
  writes : List (String × Vec)
deriving DecidableEq, Repr

/-- The `/embed` endpoint. `model.encode([text])["dense_vecs"][0]` is the
head of the provider's answer to the singleton batch (the provider contract
returns an index-aligned sequence; an absent element is modelled as `none`). -/
def embed (enabled : Bool) (st : Store)
    (provider : List String → List (Option Vec)) (text : String) :
    SingleOutput :=
  let t := strip text
  if t = "" then ⟨none, none, st, [], [], []⟩
  else
    match get_cached_embedding enabled st t with
    | some c => ⟨some c, some true, st, [t], [], []⟩
    | none =>
      match (provider [t]).headD none with
      | none => ⟨none, none, st, [t], [[t]], []⟩
      | some v =>
        if v.length = EMBEDDING_DIM then
          ⟨some v, some false, cache_embedding enabled st t v, [t], [[t]],
            [(t, v)]⟩
        else ⟨none, none, st, [t], [[t]], []⟩

/-- Output of the batch endpoint `embed_batch`, with observation traces. -/
structure BatchOutput where
  embeddings : List (Option Vec)
  store : Store
  reads : List String
  calls : List (List String)
  writes : List (String × Vec)
deriving DecidableEq, Repr

/-- Batch normalization: `t.strip() if isinstance(t, str) and t.strip()
else " "` (the request model guarantees every element is a string). -/
def cleanText (t : String) : String :=
  if strip t = "" then " " else strip t

/-- `cleaned_texts`: normalize every text, preserving order. -/
def batchCleaned (texts : List String) : List String :=
  texts.map cleanText

/-- The cache-miss positions of the lookup loop: the `(index, text)` pairs
for which `get_cached_embedding` returned `None`.  `indices_to_generate` is
the first projection, `texts_to_generate` the second. -/
def batchMisses (enabled : Bool) (st : Store) (texts : List String) :
    List (Nat × String) :=
  (batchCleaned texts).enum.filter
    (fun p => (get_cached_embedding enabled st p.2).isNone)

/-- The placeholder result list built by the lookup loop: the cached vector
at a hit, `None` at a miss. -/
def batchResults0 (enabled : Bool) (st : Store) (texts : List String) :
    List (Option Vec) :=
  (batchCleaned texts).map (fun t => get_cached_embedding enabled st t)

/-- The source's validity test `vec is not None and len(vec) ==
EMBEDDING_DIM`. -/
def isValidVec : Option Vec → Bool
  | some v => v.length == EMBEDDING_DIM
  | none => false

/-- One step of the fill-in loop over `zip(indices_to_generate, vectors)`:
a valid vector is written into the result at its recorded index and cached
under that position's normalized text; otherwise nothing happens. -/
def fillStep (enabled : Bool) (cleaned : List String)
    (acc : List (Option Vec) × Store × List (String × Vec))
    (p : Nat × Option Vec) :
    List (Option Vec) × Store × List (String × Vec) :=
  match p.2 with
  | some v =>
    if v.length = EMBEDDING_DIM then
      (acc.1.set p.1 (some v),
        cache_embedding enabled acc.2.1 (cleaned.getD p.1 " ") v,
        acc.2.2 ++ [(cleaned.getD p.1 " ", v)])
    else acc
  | none => acc

/-- The fill-in loop of `embed_batch`: a left fold of `fillStep` over the
zipped pairs. -/
def fillFold (enabled : Bool) (cleaned : List String) :
    List (Nat × Option Vec) →
    List (Option Vec) × Store × List (String × Vec) →
    List (Option Vec) × Store × List (String × Vec)
  | [], acc => acc
  | p :: ps, acc => fillFold enabled cleaned ps (fillStep enabled cleaned acc p)

/-- `zip(indices_to_generate, vectors)`: the provider's output vectors zipped
against the recorded miss indices. -/
def batchPairs (enabled : Bool) (st : Store)
    (provider : List String → List (Option Vec)) (texts : List String) :
    List (Nat × Option Vec) :=
  ((batchMisses enabled st texts).map Prod.fst).zip
    (provider ((batchMisses enabled st texts).map Prod.snd))

/-- The `/embed/batch` endpoint. -/
def embed_batch (enabled : Bool) (st : Store)
    (provider : List String → List (Option Vec)) (texts : List String) :
    BatchOutput :=
  if texts.isEmpty then ⟨[], st, [], [], []⟩
  else
    let cleaned := batchCleaned texts
    let results0 := batchResults0 enabled st texts
    let texts_to_generate := (batchMisses enabled st texts).map Prod.snd
    if texts_to_generate.isEmpty then ⟨results0, st, cleaned, [], []⟩
    else
      let final := fillFold enabled cleaned
        (batchPairs enabled st provider texts) (results0, st, [])
      ⟨final.1, final.2.1, cleaned, [texts_to_generate], final.2.2⟩

/-- Spec-side definition for the refinement claim about disabled-cache mode,
following the spec's words: with the store disabled every position is a miss,
so the result at position `i` is the provider's `i`-th output vector over the
normalized batch when it is valid, and absent otherwise. -/
def providerOnlySpec (provider : List String → List (Option Vec))
    (texts : List String) : List (Option Vec) :=
  (List.range texts.length).map (fun i =>
    match (provider (batchCleaned texts)).get? i with
    | some (some v) => if v.length = EMBEDDING_DIM then some v else none
    | some none => none
    | none => none)

/-- A sample valid vector for concrete runs. -/
def sampleVec : Vec := List.replicate 1024 0

/-- An empty, healthy store. -/
def st0 : Store := ⟨[], false, false⟩

/-- A store with a corrupt entry whose reads and writes fail. -/
def stBad : Store := ⟨[("k", Payload.corrupt)], true, true⟩

/-- A provider answering every text with a valid vector. -/
def pGood : List String → List (Option Vec) :=
  fun ts => ts.map (fun _ => some sampleVec)

/-- A provider answering `"b"` with an invalid (wrong-dimension) vector and
everything else with a valid one. -/
def pBad1 : List String → List (Option Vec) :=
  fun ts => ts.map (fun t => if t = "b" then some [] else some sampleVec)

/-- A provider returning fewer vectors than requested (none at all). -/
def pShort : List String → List (Option Vec) :=
  fun _ => []

/-- A healthy store with `"a"` already cached. -/
def stGood : Store := ⟨[("a", Payload.good sampleVec)], false, false⟩

/-! ### Generic list helpers -/

theorem map_fst_zip_eq_take {α β : Type} :
    ∀ (l₁ : List α) (l₂ : List β),
      (l₁.zip l₂).map Prod.fst = l₁.take l₂.length
  | [], _ => by simp
  | _ :: _, [] => by simp
  | a :: l₁, b :: l₂ => by
    simp [List.zip_cons_cons, map_fst_zip_eq_take l₁ l₂]

theorem zip_take_length {α β : Type} :
    ∀ (l₁ : List α) (l₂ : List β), l₁.zip (l₂.take l₁.length) = l₁.zip l₂
  | [], _ => by simp
  | _ :: _, [] => by simp
  | a :: l₁, b :: l₂ => by
    simp [List.zip_cons_cons, zip_take_length l₁ l₂]

theorem eq_snd_of_nodup_fst {β : Type} :
    ∀ (l : List (Nat × β)), (l.map Prod.fst).Nodup →
      ∀ (i : Nat) (a b : β), (i, a) ∈ l → (i, b) ∈ l → a = b
  | [], _, _, _, _, ha, _ => by cases ha
  | p :: l, hnd, i, a, b, ha, hb => by
    have hnd' : (l.map Prod.fst).Nodup := (List.nodup_cons.mp hnd).2
    have hni : p.1 ∉ l.map Prod.fst := (List.nodup_cons.mp hnd).1
    rcases List.mem_cons.mp ha with ha | ha <;>
      rcases List.mem_cons.mp hb with hb | hb
    · rw [← ha] at hb; exact (Prod.mk.injEq _ _ _ _ ▸ hb).2.symm
    · exact absurd (List.mem_map.mpr ⟨(i, b), hb, by rw [← ha]⟩) hni
    · exact absurd (List.mem_map.mpr ⟨(i, a), ha, by rw [← hb]⟩) hni
    · exact eq_snd_of_nodup_fst l hnd' i a b ha hb

theorem mem_range_zip {β : Type} {n : Nat} {vecs : List β} {i : Nat} {vo : β} :
    (i, vo) ∈ (List.range n).zip vecs ↔ i < n ∧ vecs.get? i = some vo := by
  constructor
  · intro h
    obtain ⟨k, hk⟩ := List.mem_iff_get?.mp h
    obtain ⟨h1, h2⟩ := (List.get?_zip_eq_some _ _ _ _).mp hk
    have hkn : k < n := by
      by_contra hkn
      rw [List.get?_eq_none.mpr (by simpa using Nat.le_of_not_lt hkn)] at h1
      cases h1
    rw [List.get?_range hkn] at h1
    obtain rfl : k = i := by injection h1
    exact ⟨hkn, h2⟩
  · rintro ⟨h1, h2⟩
    exact List.get?_mem
      ((List.get?_zip_eq_some (List.range n) vecs (i, vo) i).mpr
        ⟨List.get?_range h1, h2⟩)

theorem not_mem_take_of_nodup_get? {α : Type} {l : List α} {k n : Nat} {a : α}
    (hnd : l.Nodup) (hk : l.get? k = some a) (hn : n ≤ k) : a ∉ l.take n := by
  intro hmem
  obtain ⟨j, hj⟩ := List.mem_iff_get?.mp hmem
  have hjlen : j < (l.take n).length := by
    by_contra hjn
    rw [List.get?_eq_none.mpr (Nat.le_of_not_lt hjn)] at hj
    cases hj
  have hjn : j < n := by
    have h1 : (l.take n).length = min n l.length := by simp
    omega
  rw [List.get?_take hjn] at hj
  have hkl : k < l.length := by
    by_contra hkl
    rw [List.get?_eq_none.mpr (Nat.le_of_not_lt hkl)] at hk
    cases hk
  have : k = j := List.get?_inj hkl hnd (by rw [hk, hj])
  omega

/-! ### Helper lemmas on the fill-in loop -/

theorem fillFold_length (e : Bool) (c : List String) :
    ∀ (pairs : List (Nat × Option Vec)) (res : List (Option Vec)) (st : Store)
      (ws : List (String × Vec)),
      (fillFold e c pairs (res, st, ws)).1.length = res.length
  | [], _, _, _ => rfl
  | (i, vo) :: ps, res, st, ws => by
    match vo with
    | none => exact fillFold_length e c ps res st ws
    | some v =>
      by_cases hv : v.length = EMBEDDING_DIM
      · simp only [fillFold, fillStep, hv, if_pos]
        rw [fillFold_length e c ps]
        exact List.length_set ..
      · simp only [fillFold, fillStep, hv, if_neg, ite_false]
        exact fillFold_length e c ps res st ws

theorem fillFold_get?_not_mem (e : Bool) (c : List String) :
    ∀ (pairs : List (Nat × Option Vec)) (res : List (Option Vec)) (st : Store)
      (ws : List (String × Vec)) (i : Nat), i ∉ pairs.map Prod.fst →
      (fillFold e c pairs (res, st, ws)).1.get? i = res.get? i
  | [], _, _, _, _, _ => rfl
  | (j, vo) :: ps, res, st, ws, i, h => by
    have hji : j ≠ i := fun hj => h (by simp [hj])
    have hps : i ∉ ps.map Prod.fst := fun hm => h (by simp [hm])
    match vo with
    | none => exact fillFold_get?_not_mem e c ps res st ws i hps
    | some v =>
      by_cases hv : v.length = EMBEDDING_DIM
      · simp only [fillFold, fillStep, hv, if_pos]
        rw [fillFold_get?_not_mem e c ps _ _ _ i hps]
        exact List.get?_set_ne _ _ hji
      · simp only [fillFold, fillStep, hv, if_neg, ite_false]
        exact fillFold_get?_not_mem e c ps res st ws i hps

theorem fillFold_get?_valid (e : Bool) (c : List String) :
    ∀ (pairs : List (Nat × Option Vec)) (res : List (Option Vec)) (st : Store)
      (ws : List (String × Vec)) (i : Nat) (v : Vec),
      (pairs.map Prod.fst).Nodup → (i, some v) ∈ pairs →
      v.length = EMBEDDING_DIM → i < res.length →
      (fillFold e c pairs (res, st, ws)).1.get? i = some (some v) := by
  intro pairs
  induction pairs with
  | nil => intro res st ws i v _ hm _ _; cases hm
  | cons p ps ih =>
    intro res st ws i v hnd hm hv hi
    obtain ⟨j, vo⟩ := p
    have hni : j ∉ ps.map Prod.fst := (List.nodup_cons.mp hnd).1
    have hnd' : (ps.map Prod.fst).Nodup := (List.nodup_cons.mp hnd).2
    rcases List.mem_cons.mp hm with heq | hmem
    · have hji : j = i := (Prod.ext_iff.mp heq).1.symm
      have hvo : vo = some v := (Prod.ext_iff.mp heq).2.symm
      rw [hji] at hni
      rw [hji, hvo]
      simp only [fillFold, fillStep, hv, if_pos]
      rw [fillFold_get?_not_mem e c ps _ _ _ i hni]
      exact List.get?_set_eq_of_lt _ hi
    · have hji : j ≠ i := by
        intro hj
        apply hni
        rw [hj]
        exact List.mem_map.mpr ⟨(i, some v), hmem, rfl⟩
      cases vo with
      | none => exact ih res st ws i v hnd' hmem hv hi
      | some w =>
        by_cases hw : w.length = EMBEDDING_DIM
        · simp only [fillFold, fillStep, hw, if_pos]
          exact ih _ _ _ i v hnd' hmem hv (by rw [List.length_set]; exact hi)
        · simp only [fillFold, fillStep, hw, if_neg, ite_false]
          exact ih res st ws i v hnd' hmem hv hi

theorem fillFold_get?_invalid (e : Bool) (c : List String) :
    ∀ (pairs : List (Nat × Option Vec)) (res : List (Option Vec)) (st : Store)
      (ws : List (String × Vec)) (i : Nat),
      (∀ v : Vec, (i, some v) ∈ pairs → v.length ≠ EMBEDDING_DIM) →
      (fillFold e c pairs (res, st, ws)).1.get? i = res.get? i
  | [], _, _, _, _, _ => rfl
  | (j, vo) :: ps, res, st, ws, i, hno => by
    have hno' : ∀ v : Vec, (i, some v) ∈ ps → v.length ≠ EMBEDDING_DIM :=
      fun v hm => hno v (List.mem_cons.mpr (Or.inr hm))
    match vo with
    | none => exact fillFold_get?_invalid e c ps res st ws i hno'
    | some w =>
      by_cases hw : w.length = EMBEDDING_DIM
      · have hji : j ≠ i := by
          rintro rfl
          exact hno w (List.mem_cons.mpr (Or.inl rfl)) hw
        simp only [fillFold, fillStep, hw, if_pos]
        rw [fillFold_get?_invalid e c ps _ _ _ i hno']
        exact List.get?_set_ne _ _ hji
      · simp only [fillFold, fillStep, hw, if_neg, ite_false]
        exact fillFold_get?_invalid e c ps res st ws i hno'

theorem fillFold_writes (e : Bool) (c : List String) :
    ∀ (pairs : List (Nat × Option Vec)) (res : List (Option Vec)) (st : Store)
      (ws : List (String × Vec)),
      (∀ w ∈ ws, w.2.length = EMBEDDING_DIM) →
      ∀ w ∈ (fillFold e c pairs (res, st, ws)).2.2, w.2.length = EMBEDDING_DIM
  | [], _, _, _, hws => hws
  | (j, vo) :: ps, res, st, ws, hws => by
    match vo with
    | none => exact fillFold_writes e c ps res st ws hws
    | some w =>
      by_cases hw : w.length = EMBEDDING_DIM
      · simp only [fillFold, fillStep, hw, if_pos]
        refine fillFold_writes e c ps _ _ _ ?_
        intro x hx
        rcases List.mem_append.mp hx with hx | hx
        · exact hws x hx
        · rw [List.mem_singleton.mp hx]; exact hw
      · simp only [fillFold, fillStep, hw, if_neg, ite_false]
        exact fillFold_writes e c ps res st ws hws

theorem fillFold_store_disabled (c : List String) :
    ∀ (pairs : List (Nat × Option Vec)) (res : List (Option Vec)) (st : Store)
      (ws : List (String × Vec)),
      (fillFold false c pairs (res, st, ws)).2.1 = st
  | [], _, _, _ => rfl
  | (j, vo) :: ps, res, st, ws => by
    match vo with
    | none => exact fillFold_store_disabled c ps res st ws
    | some w =>
      by_cases hw : w.length = EMBEDDING_DIM
      · simp only [fillFold, fillStep, hw, if_pos]
        rw [fillFold_store_disabled c ps]
        simp [cache_embedding]
      · simp only [fillFold, fillStep, hw, if_neg, ite_false]
        exact fillFold_store_disabled c ps res st ws

/-! ### Lemmas on the batch bookkeeping -/

theorem batchCleaned_length (texts : List String) :
    (batchCleaned texts).length = texts.length :=
  List.length_map texts cleanText

theorem batchMisses_fst_nodup (e : Bool) (st : Store) (texts : List String) :
    ((batchMisses e st texts).map Prod.fst).Nodup :=
  (List.nodup_enum_map_fst _).sublist
    ((List.filter_sublist _).map Prod.fst)

theorem mem_batchMisses (e : Bool) (st : Store) (texts : List String)
    (i : Nat) (t : String) :
    (i, t) ∈ batchMisses e st texts ↔
      (batchCleaned texts).get? i = some t ∧
      get_cached_embedding e st t = none := by
  simp [batchMisses, List.mem_filter, List.mem_enum_iff_get?,
    Option.isNone_iff_eq_none]

theorem mem_batchMisses_fst (e : Bool) (st : Store) (texts : List String)
    (i : Nat) :
    i ∈ (batchMisses e st texts).map Prod.fst ↔
      ∃ t, (batchCleaned texts).get? i = some t ∧
        get_cached_embedding e st t = none := by
  simp only [List.mem_map]
  constructor
  · rintro ⟨q, hm, hq⟩
    obtain ⟨i', t⟩ := q
    have hq' : i' = i := hq
    rw [← hq']
    exact ⟨t, (mem_batchMisses e st texts i' t).mp hm⟩
  · rintro ⟨t, h1, h2⟩
    exact ⟨(i, t), (mem_batchMisses e st texts i t).mpr ⟨h1, h2⟩, rfl⟩

theorem batchPairs_fst_nodup (e : Bool) (st : Store)
    (p : List String → List (Option Vec)) (texts : List String) :
    ((batchPairs e st p texts).map Prod.fst).Nodup := by
  rw [batchPairs, map_fst_zip_eq_take]
  exact (batchMisses_fst_nodup e st texts).sublist (List.take_sublist _ _)

theorem mem_fst_of_mem_batchPairs {e : Bool} {st : Store}
    {p : List String → List (Option Vec)} {texts : List String}
    {i : Nat} {vo : Option Vec} (h : (i, vo) ∈ batchPairs e st p texts) :
    i ∈ (batchMisses e st texts).map Prod.fst :=
  (List.of_mem_zip h).1

theorem batchResults0_length (e : Bool) (st : Store) (texts : List String) :
    (batchResults0 e st texts).length = texts.length := by
  simp [batchResults0, batchCleaned]

theorem batchResults0_get? (e : Bool) (st : Store) (texts : List String)
    (i : Nat) (t : String) (h : texts.get? i = some t) :
    (batchResults0 e st texts).get? i =
      some (get_cached_embedding e st (cleanText t)) := by
  rw [batchResults0, List.get?_map, batchCleaned, List.get?_map, h]
  rfl

theorem batchResults0_get?_none (e : Bool) (st : Store) (texts : List String)
    (i : Nat) (h : i ∈ (batchMisses e st texts).map Prod.fst) :
    (batchResults0 e st texts).get? i = some none := by
  obtain ⟨t, h1, h2⟩ := (mem_batchMisses_fst e st texts i).mp h
  rw [batchResults0, List.get?_map, h1]
  simp [h2]

/-- Structural form of `embed_batch`: in every branch the output equals the
fill-in loop run on the recorded pairs, with one provider call exactly when
the to-generate list is non-empty. -/
theorem embed_batch_eq (e : Bool) (st : Store)
    (p : List String → List (Option Vec)) (texts : List String) :
    embed_batch e st p texts =
      ⟨(fillFold e (batchCleaned texts) (batchPairs e st p texts)
          (batchResults0 e st texts, st, [])).1,
        (fillFold e (batchCleaned texts) (batchPairs e st p texts)
          (batchResults0 e st texts, st, [])).2.1,
        batchCleaned texts,
        if ((batchMisses e st texts).map Prod.snd).isEmpty then []
        else [(batchMisses e st texts).map Prod.snd],
        (fillFold e (batchCleaned texts) (batchPairs e st p texts)
          (batchResults0 e st texts, st, [])).2.2⟩ := by
  rw [embed_batch]
  by_cases ht : texts.isEmpty
  · have : texts = [] := by
      cases texts with
      | nil => rfl
      | cons a l => cases ht
    subst this
    rfl
  · simp only [ht, if_false]
    by_cases hg : ((batchMisses e st texts).map Prod.snd).isEmpty
    · have hm : batchMisses e st texts = [] := by
        cases hmm : batchMisses e st texts with
        | nil => rfl
        | cons a l => rw [hmm] at hg; cases hg
      simp only [hg, if_true, hm, batchPairs, List.map_nil, List.zip_nil_left,
        fillFold]
      simp
    · simp only [hg, if_false]
      simp

theorem embed_batch_embeddings (e : Bool) (st : Store)
    (p : List String → List (Option Vec)) (texts : List String) :
    (embed_batch e st p texts).embeddings =
      (fillFold e (batchCleaned texts) (batchPairs e st p texts)
        (batchResults0 e st texts, st, [])).1 := by
  rw [embed_batch_eq]

theorem embed_batch_store (e : Bool) (st : Store)
    (p : List String → List (Option Vec)) (texts : List String) :
    (embed_batch e st p texts).store =
      (fillFold e (batchCleaned texts) (batchPairs e st p texts)
        (batchResults0 e st texts, st, [])).2.1 := by
  rw [embed_batch_eq]

theorem embed_batch_writes (e : Bool) (st : Store)
    (p : List String → List (Option Vec)) (texts : List String) :
    (embed_batch e st p texts).writes =
      (fillFold e (batchCleaned texts) (batchPairs e st p texts)
        (batchResults0 e st texts, st, [])).2.2 := by
  rw [embed_batch_eq]

theorem embed_batch_calls (e : Bool) (st : Store)
    (p : List String → List (Option Vec)) (texts : List String) :
    (embed_batch e st p texts).calls =
      (if ((batchMisses e st texts).map Prod.snd).isEmpty then []
        else [(batchMisses e st texts).map Prod.snd]) := by
  rw [embed_batch_eq]

theorem embed_batch_embeddings_length (e : Bool) (st : Store)
    (p : List String → List (Option Vec)) (texts : List String) :
    (embed_batch e st p texts).embeddings.length = texts.length := by
  rw [embed_batch_embeddings, fillFold_length]
  exact batchResults0_length e st texts

/-! ### Claim theorems -/

/-- C1: for every input batch, `embed_batch` returns a result sequence whose
length equals the input's length (an empty input yields an empty result),
and a position holds a vector exactly when it was a cache hit or the
provider returned a valid vector for the miss recorded at that position. -/
theorem resolveBatch_length_and_presence (e : Bool) (st : Store)
    (p : List String → List (Option Vec)) (texts : List String) :
    (embed_batch e st p texts).embeddings.length = texts.length ∧
    ∀ (i : Nat) (t : String), texts.get? i = some t →
      ((∃ v : Vec,
          (embed_batch e st p texts).embeddings.get? i = some (some v)) ↔
        ((∃ c : Vec, get_cached_embedding e st (cleanText t) = some c) ∨
          ∃ v : Vec, v.length = EMBEDDING_DIM ∧
            (i, some v) ∈ batchPairs e st p texts)) := by
  refine ⟨embed_batch_embeddings_length e st p texts, ?_⟩
  intro i t ht
  have hi : i < texts.length := by
    by_contra hl
    rw [List.get?_eq_none.mpr (Nat.le_of_not_lt hl)] at ht
    cases ht
  have hresl : i < (batchResults0 e st texts).length := by
    rw [batchResults0_length]; exact hi
  rw [embed_batch_embeddings]
  by_cases hhit : ∃ c : Vec, get_cached_embedding e st (cleanText t) = some c
  · obtain ⟨c, hc⟩ := hhit
    have hnm : i ∉ (batchMisses e st texts).map Prod.fst := by
      rw [mem_batchMisses_fst]
      rintro ⟨t', h1, h2⟩
      rw [batchCleaned, List.get?_map, ht] at h1
      have h1' : cleanText t = t' := by simpa using h1
      rw [← h1', hc] at h2
      cases h2
    have hpnm : i ∉ (batchPairs e st p texts).map Prod.fst := by
      intro hmem
      rw [batchPairs, map_fst_zip_eq_take] at hmem
      exact hnm ((List.take_sublist _ _).subset hmem)
    rw [fillFold_get?_not_mem e (batchCleaned texts)
      (batchPairs e st p texts) (batchResults0 e st texts) st [] i hpnm]
    rw [batchResults0_get? e st texts i t ht]
    constructor
    · intro _
      exact Or.inl ⟨c, hc⟩
    · intro _
      exact ⟨c, by rw [hc]⟩
  · have hn : get_cached_embedding e st (cleanText t) = none := by
      cases h : get_cached_embedding e st (cleanText t) with
      | none => rfl
      | some c => exact absurd ⟨c, h⟩ hhit
    have hmemf : i ∈ (batchMisses e st texts).map Prod.fst := by
      rw [mem_batchMisses_fst]
      refine ⟨cleanText t, ?_, hn⟩
      rw [batchCleaned, List.get?_map, ht]
      rfl
    by_cases hvp : ∃ v : Vec, v.length = EMBEDDING_DIM ∧
        (i, some v) ∈ batchPairs e st p texts
    · obtain ⟨v, hv, hmem⟩ := hvp
      rw [fillFold_get?_valid e (batchCleaned texts)
        (batchPairs e st p texts) (batchResults0 e st texts) st [] i v
        (batchPairs_fst_nodup e st p texts) hmem hv hresl]
      constructor
      · intro _
        exact Or.inr ⟨v, hv, hmem⟩
      · intro _
        exact ⟨v, rfl⟩
    · have hno : ∀ v : Vec, (i, some v) ∈ batchPairs e st p texts →
          v.length ≠ EMBEDDING_DIM := fun v hm hv => hvp ⟨v, hv, hm⟩
      rw [fillFold_get?_invalid e (batchCleaned texts)
        (batchPairs e st p texts) (batchResults0 e st texts) st [] i hno]
      rw [batchResults0_get?_none e st texts i hmemf]
      constructor
      · rintro ⟨v, hv⟩
        simp at hv
      · rintro (⟨c, hc⟩ | ⟨v, hv, hm⟩)
        · rw [hn] at hc
          cases hc
        · exact absurd hv (hno v hm)

theorem resolveBatch_length_and_presence_witness :
    (∃ v : Vec,
        (embed_batch true st0 pGood ["a"]).embeddings.get? 0 = some (some v)) ↔
      ((∃ c : Vec, get_cached_embedding true st0 (cleanText "a") = some c) ∨
        ∃ v : Vec, v.length = EMBEDDING_DIM ∧
          (0, some v) ∈ batchPairs true st0 pGood ["a"]) :=
  (resolveBatch_length_and_presence true st0 pGood ["a"]).2 0 "a" (by decide)

/-- C2: the provider is called at most once per `embed_batch` invocation:
exactly one batched call holding the to-generate texts (in order) when at
least one miss exists, and no call at all when every position hit. -/
theorem resolveBatch_single_provider_call (e : Bool) (st : Store)
    (p : List String → List (Option Vec)) (texts : List String) :
    (embed_batch e st p texts).calls =
      (if ((batchMisses e st texts).map Prod.snd).isEmpty then []
        else [(batchMisses e st texts).map Prod.snd]) ∧
    (embed_batch e st p texts).calls.length ≤ 1 := by
  refine ⟨embed_batch_calls e st p texts, ?_⟩
  rw [embed_batch_calls]
  by_cases h : ((batchMisses e st texts).map Prod.snd).isEmpty
  · simp [h]
  · simp [h]

theorem set_get?_self {α : Type} :
    ∀ (l : List α) (i : Nat) (a : α), l.get? i = some a → l.set i a = l
  | [], _, _, h => by cases h
  | b :: l, 0, a, h => by
    have hb : b = a := by injection h
    rw [← hb]
    rfl
  | b :: l, i + 1, a, h => by
    have : l.set i a = l := set_get?_self l i a h
    simp [List.set, this]

/-- The batch endpoint depends on the input texts only through their
normalized forms. -/
theorem embed_batch_congr (e : Bool) (st : Store)
    (p : List String → List (Option Vec)) (texts₁ texts₂ : List String)
    (hc : batchCleaned texts₁ = batchCleaned texts₂) :
    embed_batch e st p texts₁ = embed_batch e st p texts₂ := by
  have hB : batchMisses e st texts₁ = batchMisses e st texts₂ := by
    rw [batchMisses, batchMisses, hc]
  have hR : batchResults0 e st texts₁ = batchResults0 e st texts₂ := by
    rw [batchResults0, batchResults0, hc]
  have hP : batchPairs e st p texts₁ = batchPairs e st p texts₂ := by
    rw [batchPairs, batchPairs, hB]
  rw [embed_batch_eq, embed_batch_eq, hc, hB, hR, hP]

/-- C3: an empty or whitespace-only batch element is normalized to a single
space before any lookup, so the whole invocation behaves exactly as if that
element had been `" "`; the position is never dropped. -/
theorem resolveBatch_empty_text_normalized (e : Bool) (st : Store)
    (p : List String → List (Option Vec)) (texts : List String)
    (i : Nat) (t : String) (ht : texts.get? i = some t)
    (he : strip t = "") :
    cleanText t = " " ∧
    embed_batch e st p texts = embed_batch e st p (texts.set i " ") := by
  have hct : cleanText t = " " := by rw [cleanText, if_pos he]
  refine ⟨hct, ?_⟩
  apply embed_batch_congr
  rw [batchCleaned, batchCleaned, List.map_set]
  have h1 : cleanText " " = " " := by decide
  rw [h1]
  refine (set_get?_self (texts.map cleanText) i " " ?_).symm
  rw [List.get?_map, ht, Option.map_some', hct]

theorem resolveBatch_empty_text_normalized_witness :
    cleanText "" = " " ∧
    embed_batch true st0 pGood ["a", ""] =
      embed_batch true st0 pGood (["a", ""].set 1 " ") :=
  resolveBatch_empty_text_normalized true st0 pGood ["a", ""] 1 ""
    (by decide) (by decide)

/-- C4: a single-text request whose trimmed form is empty returns a null
embedding immediately: no cache read, no cache write, no provider call and
an unchanged store. -/
theorem resolveOne_empty_short_circuit (e : Bool) (st : Store)
    (p : List String → List (Option Vec)) (text : String)
    (h : strip text = "") :
    embed e st p text = ⟨none, none, st, [], [], []⟩ := by
  rw [embed]
  simp [h]

theorem resolveOne_empty_short_circuit_witness :
    embed true st0 pGood "  " = ⟨none, none, st0, [], [], []⟩ :=
  resolveOne_empty_short_circuit true st0 pGood "  " (by decide)

/-- C5: a miss whose provider vector is missing or has the wrong dimension
yields `none` at its index and no invalid vector is ever written to the
cache, while every other index's result is unaffected: any other index that
hit the cache still carries its cached vector, and any other miss whose
provider vector is valid still carries that vector; the invocation
completes normally. -/
theorem resolveBatch_invalid_vector_skipped (e : Bool) (st : Store)
    (p : List String → List (Option Vec)) (texts : List String)
    (i : Nat) (vo : Option Vec)
    (h1 : (i, vo) ∈ batchPairs e st p texts)
    (h2 : isValidVec vo = false) :
    (embed_batch e st p texts).embeddings.get? i = some none ∧
    (∀ w ∈ (embed_batch e st p texts).writes,
      w.2.length = EMBEDDING_DIM) ∧
    (∀ (j : Nat) (t : String) (c : Vec), j ≠ i → texts.get? j = some t →
      get_cached_embedding e st (cleanText t) = some c →
      (embed_batch e st p texts).embeddings.get? j = some (some c)) ∧
    (∀ (j : Nat) (v : Vec), j ≠ i → v.length = EMBEDDING_DIM →
      (j, some v) ∈ batchPairs e st p texts →
      (embed_batch e st p texts).embeddings.get? j = some (some v)) := by
  have hmf : i ∈ (batchMisses e st texts).map Prod.fst :=
    mem_fst_of_mem_batchPairs h1
  have hno : ∀ v : Vec, (i, some v) ∈ batchPairs e st p texts →
      v.length ≠ EMBEDDING_DIM := by
    intro v hm hv
    have hvv : some v = vo :=
      eq_snd_of_nodup_fst (batchPairs e st p texts)
        (batchPairs_fst_nodup e st p texts) i (some v) vo hm h1
    rw [← hvv] at h2
    simp [isValidVec, hv] at h2
  refine ⟨?_, ?_, ?_, ?_⟩
  · rw [embed_batch_embeddings,
      fillFold_get?_invalid e (batchCleaned texts) (batchPairs e st p texts)
        (batchResults0 e st texts) st [] i hno,
      batchResults0_get?_none e st texts i hmf]
  · rw [embed_batch_writes]
    exact fillFold_writes e (batchCleaned texts) (batchPairs e st p texts)
      (batchResults0 e st texts) st []
      (fun w hw => absurd hw (List.not_mem_nil w))
  · intro j t c _ hjt hc
    have hnm : j ∉ (batchMisses e st texts).map Prod.fst := by
      rw [mem_batchMisses_fst]
      rintro ⟨t', ht', hn⟩
      rw [batchCleaned, List.get?_map, hjt] at ht'
      have ht'' : cleanText t = t' := by simpa using ht'
      rw [← ht'', hc] at hn
      cases hn
    have hpnm : j ∉ (batchPairs e st p texts).map Prod.fst := by
      intro hmem
      rw [batchPairs, map_fst_zip_eq_take] at hmem
      exact hnm ((List.take_sublist _ _).subset hmem)
    rw [embed_batch_embeddings,
      fillFold_get?_not_mem e (batchCleaned texts) (batchPairs e st p texts)
        (batchResults0 e st texts) st [] j hpnm,
      batchResults0_get? e st texts j t hjt, hc]
  · intro j v _ hv hm
    have hjmf : j ∈ (batchMisses e st texts).map Prod.fst :=
      mem_fst_of_mem_batchPairs hm
    have hjlen : j < texts.length := by
      obtain ⟨t, ht, _⟩ := (mem_batchMisses_fst e st texts j).mp hjmf
      have hlt : j < (batchCleaned texts).length := by
        by_contra hge
        rw [List.get?_eq_none.mpr (Nat.le_of_not_lt hge)] at ht
        cases ht
      rw [batchCleaned_length] at hlt
      exact hlt
    have hresl : j < (batchResults0 e st texts).length := by
      rw [batchResults0_length]
      exact hjlen
    rw [embed_batch_embeddings]
    exact fillFold_get?_valid e (batchCleaned texts)
      (batchPairs e st p texts) (batchResults0 e st texts) st [] j v
      (batchPairs_fst_nodup e st p texts) hm hv hresl

theorem resolveBatch_invalid_vector_skipped_witness :
    (embed_batch true stGood pBad1 ["a", "b", "c"]).embeddings.get? 1 =
      some none ∧
    (embed_batch true stGood pBad1 ["a", "b", "c"]).embeddings.get? 0 =
      some (some sampleVec) ∧
    (embed_batch true stGood pBad1 ["a", "b", "c"]).embeddings.get? 2 =
      some (some sampleVec) :=
  ⟨(resolveBatch_invalid_vector_skipped true stGood pBad1 ["a", "b", "c"] 1
      (some []) (by decide) (by decide)).1,
    (resolveBatch_invalid_vector_skipped true stGood pBad1 ["a", "b", "c"] 1
      (some []) (by decide) (by decide)).2.2.1 0 "a" sampleVec (by decide)
      (by decide) (by decide),
    (resolveBatch_invalid_vector_skipped true stGood pBad1 ["a", "b", "c"] 1
      (some []) (by decide) (by decide)).2.2.2 2 sampleVec (by decide)
      (by decide) (by decide)⟩

/-- C6: the cache adapter is total at the gateway boundary: `Get` returns
`none` when the cache is disabled, the read fails, the key is absent or the
payload is corrupt, and `Put` completes with the store unchanged when the
cache is disabled or the write fails. -/
theorem cacheAdapter_total (e : Bool) (st : Store) (t : String) (v : Vec) :
    get_cached_embedding false st t = none ∧
    (st.failReads = true → get_cached_embedding e st t = none) ∧
    (st.entries.lookup (get_cache_key t) = none →
      get_cached_embedding e st t = none) ∧
    (st.entries.lookup (get_cache_key t) = some Payload.corrupt →
      get_cached_embedding e st t = none) ∧
    cache_embedding false st t v = st ∧
    (st.failWrites = true → cache_embedding e st t v = st) := by
  refine ⟨?_, ?_, ?_, ?_, ?_, ?_⟩
  · simp [get_cached_embedding]
  · intro h
    cases e
    · simp [get_cached_embedding]
    · simp [get_cached_embedding, rawGet, h]
  · intro h
    cases e
    · simp [get_cached_embedding]
    · cases hfr : st.failReads <;>
        simp [get_cached_embedding, rawGet, h, hfr]
  · intro h
    cases e
    · simp [get_cached_embedding]
    · cases hfr : st.failReads <;>
        simp [get_cached_embedding, rawGet, deserialize, h, hfr]
  · simp [cache_embedding]
  · intro h
    cases e
    · simp [cache_embedding]
    · simp [cache_embedding, rawSetex, h]

theorem cacheAdapter_total_witness :
    get_cached_embedding true stBad "x" = none ∧
    cache_embedding true stBad "x" [] = stBad :=
  ⟨(cacheAdapter_total true stBad "x" []).2.1 (by decide),
    (cacheAdapter_total true stBad "x" []).2.2.2.2.2 (by decide)⟩

/-- C7 counterexample: for `t = ""` (with a healthy empty cache and a
well-behaved provider) the second `embed` call is not a cache hit — both
calls short-circuit on the empty trimmed text — so the claim as stated,
quantified over all texts, fails. -/
theorem resolveOne_twice_cached_counterexample :
    ¬((embed true (embed true st0 pGood "").store pGood "").cached =
        some true ∧
      (embed true (embed true st0 pGood "").store pGood "").embedding =
        (embed true st0 pGood "").embedding ∧
      (embed true st0 pGood "").calls.length +
        (embed true (embed true st0 pGood "").store pGood "").calls.length
        ≤ 1) := by
  decide

/-- C7 (amended): for every text whose trimmed form is non-empty, with a
healthy cache (reads and writes succeed) and a provider returning a valid
vector for the trimmed text, the second of two successive `embed` calls is
a cache hit with a vector identical to the first result, and at most one
provider call happens across both invocations. -/
theorem resolveOne_twice_cached (st : Store)
    (p : List String → List (Option Vec)) (t : String) (v : Vec)
    (ht : ¬strip t = "")
    (hr : st.failReads = false) (hw : st.failWrites = false)
    (hp : (p [strip t]).headD none = some v)
    (hv : v.length = EMBEDDING_DIM) :
    (embed true (embed true st p t).store p t).cached = some true ∧
    (embed true (embed true st p t).store p t).embedding =
      (embed true st p t).embedding ∧
    (embed true st p t).calls.length +
      (embed true (embed true st p t).store p t).calls.length ≤ 1 := by
  cases hc : get_cached_embedding true st (strip t) with
  | some c =>
    have ho1 : embed true st p t = ⟨some c, some true, st, [strip t], [], []⟩ := by
      rw [embed]
      simp [ht, hc]
    have hsto : (embed true st p t).store = st := by rw [ho1]
    have key : embed true (embed true st p t).store p t =
        ⟨some c, some true, st, [strip t], [], []⟩ := by
      rw [hsto, ho1]
    refine ⟨by rw [key], by rw [key, ho1], by rw [key, ho1]; simp⟩
  | none =>
    have ho1 : embed true st p t =
        ⟨some v, some false, cache_embedding true st (strip t) v,
          [strip t], [[strip t]], [(strip t, v)]⟩ := by
      have hp' : (p [strip t]).head?.getD none = some v := by
        simpa using hp
      rw [embed]
      simp [ht, hc, hp', hv]
    have hc2 : get_cached_embedding true
        (cache_embedding true st (strip t) v) (strip t) = some v := by
      rw [cache_embedding, get_cached_embedding]
      simp [rawSetex, rawGet, hw, hr, deserialize, get_cache_key,
        List.lookup, beq_self_eq_true]
    have ho2 : embed true (cache_embedding true st (strip t) v) p t =
        ⟨some v, some true, cache_embedding true st (strip t) v,
          [strip t], [], []⟩ := by
      rw [embed]
      simp [ht, hc2]
    have hsto : (embed true st p t).store =
        cache_embedding true st (strip t) v := by rw [ho1]
    have key : embed true (embed true st p t).store p t =
        ⟨some v, some true, cache_embedding true st (strip t) v,
          [strip t], [], []⟩ := by
      rw [hsto, ho2]
    refine ⟨by rw [key], by rw [key, ho1], by rw [key, ho1]; simp⟩

theorem resolveOne_twice_cached_witness :
    (embed true (embed true st0 pGood "x").store pGood "x").cached =
      some true ∧
    (embed true (embed true st0 pGood "x").store pGood "x").embedding =
      (embed true st0 pGood "x").embedding ∧
    (embed true st0 pGood "x").calls.length +
      (embed true (embed true st0 pGood "x").store pGood "x").calls.length
      ≤ 1 :=
  resolveOne_twice_cached st0 pGood "x" sampleVec (by decide) (by decide)
    (by decide) (by decide) (by decide)

theorem get_cached_embedding_disabled (st : Store) (t : String) :
    get_cached_embedding false st t = none := by
  simp [get_cached_embedding]

theorem batchMisses_disabled (st : Store) (texts : List String) :
    batchMisses false st texts = (batchCleaned texts).enum := by
  rw [batchMisses]
  apply List.filter_eq_self.mpr
  intro a _
  simp [get_cached_embedding_disabled]

/-- C8: with the cache disabled, `embed_batch` returns exactly the
provider-only computation over the normalized texts and leaves the store
untouched — correctness does not depend on cache availability. -/
theorem resolveBatch_disabled_cache_refines (st : Store)
    (p : List String → List (Option Vec)) (texts : List String) :
    (embed_batch false st p texts).embeddings = providerOnlySpec p texts ∧
    (embed_batch false st p texts).store = st := by
  have hfst : (batchMisses false st texts).map Prod.fst =
      List.range texts.length := by
    rw [batchMisses_disabled, List.enum_map_fst, batchCleaned_length]
  have hsnd : (batchMisses false st texts).map Prod.snd =
      batchCleaned texts := by
    rw [batchMisses_disabled, List.enum_map_snd]
  have hpairs : batchPairs false st p texts =
      (List.range texts.length).zip (p (batchCleaned texts)) := by
    rw [batchPairs, hfst, hsnd]
  constructor
  · apply List.ext
    intro i
    by_cases hi : i < texts.length
    · have hres0 : (batchResults0 false st texts).get? i = some none := by
        have ht : texts.get? i = some (texts.get ⟨i, hi⟩) :=
          List.get?_eq_get hi
        rw [batchResults0_get? false st texts i _ ht,
          get_cached_embedding_disabled]
      have hrhs : (providerOnlySpec p texts).get? i =
          some (match (p (batchCleaned texts)).get? i with
            | some (some v) =>
              if v.length = EMBEDDING_DIM then some v else none
            | some none => none
            | none => none) := by
        rw [providerOnlySpec, List.get?_map, List.get?_range hi,
          Option.map_some']
      have hresl : i < (batchResults0 false st texts).length := by
        rw [batchResults0_length]; exact hi
      rw [embed_batch_embeddings, hrhs]
      cases hv : (p (batchCleaned texts)).get? i with
      | none =>
        have hno : ∀ v : Vec, (i, some v) ∈ batchPairs false st p texts →
            v.length ≠ EMBEDDING_DIM := by
          intro v hm _
          have := (mem_range_zip.mp (hpairs ▸ hm)).2
          rw [hv] at this
          cases this
        rw [fillFold_get?_invalid false (batchCleaned texts)
          (batchPairs false st p texts) (batchResults0 false st texts) st []
          i hno, hres0]
      | some vo =>
        cases vo with
        | none =>
          have hno : ∀ v : Vec, (i, some v) ∈ batchPairs false st p texts →
              v.length ≠ EMBEDDING_DIM := by
            intro v hm _
            have h2 := (mem_range_zip.mp (hpairs ▸ hm)).2
            rw [hv] at h2
            simp at h2
          rw [fillFold_get?_invalid false (batchCleaned texts)
            (batchPairs false st p texts) (batchResults0 false st texts) st
            [] i hno, hres0]
        | some v =>
          by_cases hlen : v.length = EMBEDDING_DIM
          · have hmem : (i, some v) ∈ batchPairs false st p texts := by
              rw [hpairs]
              exact mem_range_zip.mpr ⟨hi, hv⟩
            rw [fillFold_get?_valid false (batchCleaned texts)
              (batchPairs false st p texts) (batchResults0 false st texts)
              st [] i v (batchPairs_fst_nodup false st p texts) hmem hlen
              hresl]
            simp [hlen]
          · have hno : ∀ w : Vec, (i, some w) ∈ batchPairs false st p texts →
                w.length ≠ EMBEDDING_DIM := by
              intro w hm hwl
              have h2 := (mem_range_zip.mp (hpairs ▸ hm)).2
              rw [hv] at h2
              have h3 : some v = some w := by injection h2
              have h4 : v = w := by injection h3
              rw [← h4] at hwl
              exact hlen hwl
            rw [fillFold_get?_invalid false (batchCleaned texts)
              (batchPairs false st p texts) (batchResults0 false st texts)
              st [] i hno, hres0]
            simp [hlen]
    · have h1 : (embed_batch false st p texts).embeddings.get? i = none := by
        rw [List.get?_eq_none.mpr]
        rw [embed_batch_embeddings_length]
        exact Nat.le_of_not_lt hi
      have h2 : (providerOnlySpec p texts).get? i = none := by
        rw [List.get?_eq_none.mpr]
        rw [providerOnlySpec, List.length_map, List.length_range]
        exact Nat.le_of_not_lt hi
      rw [h1, h2]
  · rw [embed_batch_store]
    exact fillFold_store_disabled (batchCleaned texts)
      (batchPairs false st p texts) (batchResults0 false st texts) st []

/-- C9: `embed_batch` does not deduplicate repeated normalized texts: on an
empty store every occurrence is a miss and is submitted to the provider
separately; in the `["hello", "", "hello"]` example the provider receives
three texts, each occurrence is cached, and the result stays
index-aligned. -/
theorem resolveBatch_no_dedup :
    (∀ (e : Bool) (st : Store) (texts : List String), st.entries = [] →
      (batchMisses e st texts).map Prod.snd = batchCleaned texts) ∧
    (embed_batch true st0 pGood ["hello", "", "hello"]).calls =
      [["hello", " ", "hello"]] ∧
    (embed_batch true st0 pGood ["hello", "", "hello"]).writes =
      [("hello", sampleVec), (" ", sampleVec), ("hello", sampleVec)] ∧
    (embed_batch true st0 pGood ["hello", "", "hello"]).embeddings =
      [some sampleVec, some sampleVec, some sampleVec] := by
  refine ⟨?_, by decide, by decide, by decide⟩
  intro e st texts hst
  rw [batchMisses]
  have hall : (batchCleaned texts).enum.filter
      (fun q => (get_cached_embedding e st q.2).isNone) =
      (batchCleaned texts).enum := by
    apply List.filter_eq_self.mpr
    intro a _
    have hn : get_cached_embedding e st a.2 = none := by
      cases e
      · simp [get_cached_embedding]
      · cases hfr : st.failReads <;>
          simp [get_cached_embedding, rawGet, hfr, hst]
    rw [hn]
    rfl
  rw [hall, List.enum_map_snd]

theorem resolveBatch_no_dedup_witness :
    (batchMisses true st0 ["a"]).map Prod.snd = batchCleaned ["a"] :=
  resolveBatch_no_dedup.1 true st0 ["a"] (by decide)

/-- C10: pairs are matched positionally up to the shorter of the miss list
and the provider's output: surplus provider vectors are ignored (truncating
them changes nothing), every unmatched miss index keeps `none`, and the
invocation completes normally. -/
theorem resolveBatch_zip_truncation (e : Bool) (st : Store)
    (p : List String → List (Option Vec)) (texts : List String) :
    embed_batch e st p texts =
      embed_batch e st (fun ts => (p ts).take ts.length) texts ∧
    ∀ (k i : Nat),
      (p ((batchMisses e st texts).map Prod.snd)).length ≤ k →
      ((batchMisses e st texts).map Prod.fst).get? k = some i →
      (embed_batch e st p texts).embeddings.get? i = some none := by
  constructor
  · have hpairs : batchPairs e st p texts =
        batchPairs e st (fun ts => (p ts).take ts.length) texts := by
      rw [batchPairs, batchPairs]
      have htgl : ((batchMisses e st texts).map Prod.snd).length =
          ((batchMisses e st texts).map Prod.fst).length := by
        rw [List.length_map, List.length_map]
      show ((batchMisses e st texts).map Prod.fst).zip
          (p ((batchMisses e st texts).map Prod.snd)) =
        ((batchMisses e st texts).map Prod.fst).zip
          ((p ((batchMisses e st texts).map Prod.snd)).take
            ((batchMisses e st texts).map Prod.snd).length)
      rw [htgl, zip_take_length]
    rw [embed_batch_eq, embed_batch_eq, hpairs]
  · intro k i hk hgi
    have hmem : i ∈ (batchMisses e st texts).map Prod.fst :=
      List.get?_mem hgi
    have hres0 := batchResults0_get?_none e st texts i hmem
    have hnotin : i ∉ (batchPairs e st p texts).map Prod.fst := by
      rw [batchPairs, map_fst_zip_eq_take]
      exact not_mem_take_of_nodup_get? (batchMisses_fst_nodup e st texts)
        hgi hk
    rw [embed_batch_embeddings,
      fillFold_get?_not_mem e (batchCleaned texts) (batchPairs e st p texts)
        (batchResults0 e st texts) st [] i hnotin,
      hres0]

theorem resolveBatch_zip_truncation_witness :
    (embed_batch true st0 pShort ["a"]).embeddings.get? 0 = some none :=
  (resolveBatch_zip_truncation true st0 pShort ["a"]).2 0 0 (by decide)
    (by decide)
